import Mathlib

/-!
Verification development for the Orwellish OSINT node editor
(`src/OSINT-framework.py`).

The development shallowly embeds the program's data model and the model-level
operations: the enrichment pipeline (`MainWindow.enrich_selected` together with
`MainWindow.extract_emails`), the inspector write-back
(`MainWindow.update_selected_from_ui`), the edge bookkeeping
(`MainWindow._model_add_edge`, `MainWindow._model_delete_edge`), the connection
gesture (`GraphScene.edge_click`), node deletion (`MainWindow.keyPressEvent`,
delete branch), and the JSON persistence codec (`MainWindow.export_json`,
`MainWindow.import_json`).

Embedding conventions:
* Python lists become Lean `List`s, dataclasses become structures with the same
  field names and defaults.
* Python `float` positions are modelled by `Rat`: the JSON codec round-trips a
  Python float exactly (shortest-repr serialization), so an exact numeric type
  is a faithful model of the position fields as they travel through the codec.
* External lookups (`whois_domain`, `dns_records`, `urls_for_person`,
  `urls_for_domain`, `urls_for_ip`, `tldextract`) and the compiled regular
  expression `EMAIL_RE.findall` are deterministic inputs of one enrichment run;
  they are collected in the `ExtLookups` record, so "the same external responses"
  means "the same `ExtLookups` value".
* `dict.fromkeys` (first-occurrence deduplication) is modelled by
  `pyDictFromKeys`; Python `sorted` on strings by insertion sort over the
  lexicographic order on `String` (its argument is already duplicate-free
  wherever `sorted` occurs, so stability is irrelevant).
-/

/-- `Attachment` dataclass: `{label: str = "link", url: str = ""}`. -/
structure Attachment where
  label : String := "link"
  url : String := ""
deriving DecidableEq

/-- `NodeData` dataclass with the source's field names and defaults. -/
structure NodeData where
  id : String := ""
  label : String := "Untitled"
  group : String := "note"
  tags : List String := []
  status : String := "unknown"
  confidence : Int := 50
  attachments : List Attachment := []
  notes : String := ""
  x : Rat := 0
  y : Rat := 0
deriving DecidableEq

/-- `EdgeData` dataclass. -/
structure EdgeData where
  source : String := ""
  target : String := ""
  label : String := ""
  style : String := "solid"
deriving DecidableEq

/-- `GraphData` dataclass: ordered node and edge sequences. -/
structure GraphData where
  nodes : List NodeData := []
  edges : List EdgeData := []
deriving DecidableEq

/-- `att.url == a.url for a in atts`: some attachment in `atts` carries url `u`. -/
def urlPresent (u : String) (atts : List Attachment) : Prop :=
  ∃ a ∈ atts, u = a.url

instance (u : String) (atts : List Attachment) : Decidable (urlPresent u atts) :=
  inferInstanceAs (Decidable (∃ a ∈ atts, u = a.url))

/-- One guarded attachment append from `enrich_selected`:
`if not any(att.url == a.url for a in nd.attachments): nd.attachments.append(Attachment(label=att.label, url=att.url))`. -/
def attAppend (acc : List Attachment) (att : Attachment) : List Attachment :=
  if urlPresent att.url acc then acc else acc ++ [⟨att.label, att.url⟩]

/-- The loop of guarded attachment appends over a candidate list. -/
def appendAttachmentsDedup (atts cands : List Attachment) : List Attachment :=
  cands.foldl attAppend atts

/-- One guarded tag append from `enrich_selected`:
`if tag not in nd.tags: nd.tags = nd.tags + [tag]`. -/
def tagAppend (acc : List String) (t : String) : List String :=
  if t ∈ acc then acc else acc ++ [t]

/-- The loop of guarded tag appends over a candidate list. -/
def appendTagsDedup (tags cands : List String) : List String :=
  cands.foldl tagAppend tags

/-- `list(dict.fromkeys(l))`: keep the first occurrence of each value, in
first-seen order (each key is inserted on first sight, later sights are
ignored). -/
def pyDictFromKeys (l : List String) : List String :=
  appendTagsDedup [] l

/-- Sorted insertion into an ascending list. -/
def insertSorted (x : String) : List String → List String
  | [] => [x]
  | y :: l => if x ≤ y then x :: y :: l else y :: insertSorted x l

/-- Insertion sort, the model of Python `sorted` on strings (its argument here
is always duplicate-free, so stability is irrelevant). -/
def pySort (l : List String) : List String :=
  l.foldr insertSorted []

/-- `sorted(set(l))` for a list of strings. -/
def pySortedSet (l : List String) : List String :=
  pySort (pyDictFromKeys l)

/-- `MainWindow.extract_emails`: collect every `EMAIL_RE` match over each
attachment's `url + " " + label`, the label, and the notes; return the sorted
set.  `findall` stands for `EMAIL_RE.findall`. -/
def extract_emails (findall : String → List String) (nd : NodeData) : List String :=
  pySortedSet
    ((nd.attachments.flatMap (fun a => findall (a.url ++ " " ++ a.label))) ++
      findall nd.label ++ findall nd.notes)

/-- The deterministic external world of one enrichment run: results of
`urls_for_person(nd.label)`, the `tldextract`-derived target for a `url` node
(falling back to the label when extraction raises), `whois_domain(target)`,
`dns_records(target)`, `urls_for_domain(target)`, `urls_for_ip(nd.label)`, and
`EMAIL_RE.findall`. -/
structure ExtLookups where
  personAtts : List Attachment
  urlTarget : String
  whoisRegistrar : Option String
  whoisNS : List String
  dnsRecs : List (String × List String)
  domainAtts : List Attachment
  ipAtts : List Attachment
  findall : String → List String

/-- `enrich_selected`, person branch. -/
def stagePerson (ext : ExtLookups) (nd : NodeData) : NodeData :=
  if nd.group = "person" ∧ nd.label ≠ "" then
    { nd with attachments := appendAttachmentsDedup nd.attachments ext.personAtts }
  else nd

/-- Tags contributed by the domain branch: `registrar:<r>` when the registrar
field is truthy, `ns:<ns>` for each name server, `dns:<k>:<v>` for each DNS
record. -/
def domainTagCands (ext : ExtLookups) : List String :=
  (match ext.whoisRegistrar with
    | some r => if r = "" then [] else ["registrar:" ++ r]
    | none => []) ++
  ext.whoisNS.map (fun ns => "ns:" ++ ns) ++
  ext.dnsRecs.flatMap (fun kv => kv.2.map (fun v => "dns:" ++ kv.1 ++ ":" ++ v))

/-- `target` as computed in the domain/url branch. -/
def enrichTarget (ext : ExtLookups) (nd : NodeData) : String :=
  if nd.group = "url" then ext.urlTarget else nd.label

/-- `enrich_selected`, domain/url branch. -/
def stageDomain (ext : ExtLookups) (nd : NodeData) : NodeData :=
  if nd.group = "domain" ∨ nd.group = "url" then
    if enrichTarget ext nd ≠ "" then
      { nd with
        tags := appendTagsDedup nd.tags (domainTagCands ext),
        attachments := appendAttachmentsDedup nd.attachments ext.domainAtts }
    else nd
  else nd

/-- `enrich_selected`, ip branch. -/
def stageIp (ext : ExtLookups) (nd : NodeData) : NodeData :=
  if nd.group = "ip" then
    { nd with attachments := appendAttachmentsDedup nd.attachments ext.ipAtts }
  else nd

/-- The three group-specific branches of `enrich_selected`, in source order. -/
def enrichPre (ext : ExtLookups) (nd : NodeData) : NodeData :=
  stageIp ext (stageDomain ext (stagePerson ext nd))

/-- `enrich_selected`, email block: append `email:<addr>` tags, promote an
`unknown` status to `suspected`, raise confidence to at least 60. -/
def stageEmail (ext : ExtLookups) (nd : NodeData) : NodeData :=
  let emails := extract_emails ext.findall nd
  if emails = [] then nd
  else
    { nd with
      tags := appendTagsDedup nd.tags (emails.map (fun e => "email:" ++ e)),
      status := if nd.status = "unknown" then "suspected" else nd.status,
      confidence := max nd.confidence 60 }

/-- `MainWindow.enrich_selected`: the full model-level effect on the selected
node, given the external responses `ext`. -/
def enrich_selected (ext : ExtLookups) (nd : NodeData) : NodeData :=
  stageEmail ext (enrichPre ext nd)

/-- `[t.strip() for t in text.split(",") if t.strip()]`. -/
def tagPieces (s : String) : List String :=
  ((s.splitOn ",").map String.trim).filter (fun t => t ≠ "")

/-- The inspector form's current values.  `confParsed` is the outcome of
`int(self.confEdit.text())`: `none` models the `except` branch. -/
structure UIForm where
  nameText : String
  groupData : String
  statusText : String
  confParsed : Option Int
  tagsText : String
  notesText : String

/-- `MainWindow.update_selected_from_ui`: write the form back into the selected
node's model. -/
def update_selected_from_ui (f : UIForm) (nd : NodeData) : NodeData :=
  { nd with
    label := if f.nameText.trim = "" then "Untitled" else f.nameText.trim,
    group := f.groupData,
    status := f.statusText,
    confidence :=
      match f.confParsed with
      | some v => max 0 (min 100 v)
      | none => 50,
    tags := pyDictFromKeys (tagPieces f.tagsText),
    notes := f.notesText }

/-- One attachment object of the JSON document.  `Attachment(**a)` on import
accepts exactly the keys `label` and `url` (the keys `asdict` writes). -/
structure DocAttachment where
  label : String
  url : String
deriving DecidableEq

/-- One node object of the JSON document; `none` models an absent key, which
the importer reads through `dict.get` with the shown defaults. -/
structure DocNode where
  id : Option String := none
  label : Option String := none
  group : Option String := none
  tags : Option (List String) := none
  status : Option String := none
  confidence : Option Int := none
  attachments : Option (List DocAttachment) := none
  notes : Option String := none
  x : Option Rat := none
  y : Option Rat := none
deriving DecidableEq

/-- One edge object of the JSON document; `EdgeData(**e)` falls back to the
dataclass defaults for absent keys. -/
structure DocEdge where
  source : Option String := none
  target : Option String := none
  label : Option String := none
  style : Option String := none
deriving DecidableEq

/-- The JSON document: two top-level arrays, read via
`data.get("nodes", [])` / `data.get("edges", [])`. -/
structure Doc where
  nodes : List DocNode := []
  edges : List DocEdge := []
deriving DecidableEq

/-- One serialized node of `export_json`: `asdict(n)` with a copied tag list
and rewrapped attachments. -/
def nodeToDoc (n : NodeData) : DocNode :=
  { id := some n.id, label := some n.label, group := some n.group,
    tags := some n.tags, status := some n.status, confidence := some n.confidence,
    attachments := some (n.attachments.map (fun a => ⟨a.label, a.url⟩)),
    notes := some n.notes, x := some n.x, y := some n.y }

/-- `asdict(e)` for an edge. -/
def edgeToDoc (e : EdgeData) : DocEdge :=
  { source := some e.source, target := some e.target,
    label := some e.label, style := some e.style }

/-- The position flush at the start of `export_json`: every node with a scene
item gets its current scene position written into the model; `pos` maps a node
id to its scene item's position. -/
def flushPositions (pos : String → Option (Rat × Rat)) (g : GraphData) : GraphData :=
  { g with
    nodes := g.nodes.map (fun n =>
      match pos n.id with
      | some p => { n with x := p.1, y := p.2 }
      | none => n) }

/-- `MainWindow.export_json`: flush positions into the model, then serialize
the graph into the document. -/
def export_json (pos : String → Option (Rat × Rat)) (g : GraphData) : Doc :=
  { nodes := (flushPositions pos g).nodes.map nodeToDoc,
    edges := (flushPositions pos g).edges.map edgeToDoc }

/-- Reconstruction of one node in `import_json`, with the source's `get`
defaults.  `int(...)` on the document's integer is the identity — this
path applies no clamp. -/
def importNode (n : DocNode) : NodeData :=
  { id := n.id.getD "", label := n.label.getD "Untitled", group := n.group.getD "note",
    tags := n.tags.getD [], status := n.status.getD "unknown",
    confidence := n.confidence.getD 50,
    attachments := (n.attachments.getD []).map (fun a => ⟨a.label, a.url⟩),
    notes := n.notes.getD "", x := n.x.getD 0, y := n.y.getD 0 }

/-- `EdgeData(**e)`. -/
def importEdge (e : DocEdge) : EdgeData :=
  { source := e.source.getD "", target := e.target.getD "",
    label := e.label.getD "", style := e.style.getD "solid" }

/-- `MainWindow.import_json`, model part: reset `self.graph` and rebuild it
from the document.  Every edge object is appended to `self.graph.edges`
verbatim — the import loop calls neither `_model_add_edge` nor any endpoint
check on the model list. -/
def import_json (d : Doc) : GraphData :=
  { nodes := d.nodes.map importNode, edges := d.edges.map importEdge }

/-- The id projection of a node sequence (the keys of `GraphScene.nodes`). -/
def nodeIds (ns : List NodeData) : List String := ns.map (fun n => n.id)

/-- The scene's edge list after `import_json`: `GraphScene.add_edge` returns
`None` (dropping the edge) unless both endpoint ids are registered scene
nodes; during import every node is added to the scene before any edge. -/
def importSceneEdges (d : Doc) : List EdgeData :=
  (d.edges.map importEdge).filter
    (fun e => decide (e.source ∈ nodeIds (d.nodes.map importNode) ∧
                      e.target ∈ nodeIds (d.nodes.map importNode)))

/-- `MainWindow._model_add_edge`: append unless the (source, target, label)
triple is already present. -/
def model_add_edge (edges : List EdgeData) (ed : EdgeData) : List EdgeData :=
  if ∃ e ∈ edges, e.source = ed.source ∧ e.target = ed.target ∧ e.label = ed.label
  then edges
  else edges ++ [ed]

/-- The (source, target, label) triple of an edge. -/
def edgeTriple (e : EdgeData) : String × String × String :=
  (e.source, e.target, e.label)

/-- `MainWindow._model_delete_edge`: drop every model edge whose
(source, target, label) matches the removed scene edge. -/
def model_delete_edge (edges : List EdgeData) (s t l : String) : List EdgeData :=
  edges.filter (fun e => !(decide (e.source = s ∧ e.target = t ∧ e.label = l)))

/-- The mutable editor state touched by deletion: the model graph plus the
scene's derived node-id set and edge items.  A scene edge item is identified
by its endpoint node ids (its `src`/`dst` items' models), its label text and
its style. -/
structure EditorState where
  graphNodes : List NodeData
  graphEdges : List EdgeData
  sceneNodeIds : List String
  sceneEdges : List EdgeData
deriving DecidableEq

/-- `MainWindow.keyPressEvent`, delete branch, for one selected node item with
model id `nid`: every scene edge item incident to the node is removed from the
scene and handed to `_model_delete_edge`; then the node leaves the scene map
and the model node list. -/
def deleteNode (st : EditorState) (nid : String) : EditorState :=
  let incident := st.sceneEdges.filter (fun e => e.source == nid || e.target == nid)
  { graphNodes := st.graphNodes.filter (fun n => n.id != nid),
    graphEdges := incident.foldl
      (fun ges e => model_delete_edge ges e.source e.target e.label) st.graphEdges,
    sceneNodeIds := st.sceneNodeIds.filter (fun i => i != nid),
    sceneEdges := st.sceneEdges.filter (fun e => !(e.source == nid || e.target == nid)) }

/-- The editor state immediately after `import_json d`. -/
def importState (d : Doc) : EditorState :=
  { graphNodes := (import_json d).nodes,
    graphEdges := (import_json d).edges,
    sceneNodeIds := nodeIds (import_json d).nodes,
    sceneEdges := importSceneEdges d }

/-- The state read and written by `GraphScene.edge_click`: the armed source
(`GraphScene._edgeSource`, by node id), the model edge list (via the
`on_add_edge` hook, wired to `_model_add_edge`), and the scene edge items. -/
structure GestureState where
  armed : Option String
  graphEdges : List EdgeData
  sceneEdges : List EdgeData
deriving DecidableEq

/-- `GraphScene.edge_click` on the node item with id `nid`.  `prompt` is the
label dialog's outcome (`none` = cancelled, which the source maps to `""`).
Both items of a completed gesture are registered scene nodes, so
`GraphScene.add_edge` appends the item unconditionally. -/
def edge_click (gs : GestureState) (nid : String) (prompt : Option String) : GestureState :=
  match gs.armed with
  | none => { gs with armed := some nid }
  | some src =>
    if nid = src then { gs with armed := none }
    else
      let ed : EdgeData := { source := src, target := nid, label := prompt.getD "", style := "solid" }
      { armed := none,
        graphEdges := model_add_edge gs.graphEdges ed,
        sceneEdges := gs.sceneEdges ++ [ed] }

/-!
Heap model for the aliasing contract (claim about container identity).  The
two mutable list fields of each node live in stores addressed by allocation
index, mirroring CPython object identity; every other field is an immutable
value rebound per node.  A Python statement that rebinds a list field
(`nd.tags = ...`) is a fresh allocation; a statement that mutates in place
(`nd.attachments.append(...)`) writes the store at the existing reference.
-/

/-- A node as held on the heap: scalar fields by value, the two list fields by
reference into the store. -/
structure RefNode where
  id : String
  label : String
  group : String
  status : String
  confidence : Int
  notes : String
  tagsRef : Nat
  attRef : Nat
deriving DecidableEq

/-- The store: one function per list kind, plus the next fresh address. -/
structure Heap where
  tagStore : Nat → List String
  attStore : Nat → List Attachment
  next : Nat

/-- The heap together with the graph's node sequence. -/
structure HeapState where
  heap : Heap
  nodes : List RefNode

/-- Store update for tag lists. -/
def writeTagStore (h : Heap) (r : Nat) (v : List String) : Heap :=
  { h with tagStore := fun q => if q = r then v else h.tagStore q }

/-- Store update for attachment lists. -/
def writeAttStore (h : Heap) (r : Nat) (v : List Attachment) : Heap :=
  { h with attStore := fun q => if q = r then v else h.attStore q }

/-- The tag list of the `j`-th node, as read through its reference. -/
def tagsOfIdx (s : HeapState) (j : Nat) : List String :=
  match s.nodes[j]? with
  | some rn => s.heap.tagStore rn.tagsRef
  | none => []

/-- The attachment list of the `j`-th node, as read through its reference. -/
def attsOfIdx (s : HeapState) (j : Nat) : List Attachment :=
  match s.nodes[j]? with
  | some rn => s.heap.attStore rn.attRef
  | none => []

/-- The plain node value a heap node currently denotes (positions are not
touched by any of the modelled operations and are fixed at 0). -/
def refNodeData (s : HeapState) (rn : RefNode) : NodeData :=
  { id := rn.id, label := rn.label, group := rn.group,
    tags := s.heap.tagStore rn.tagsRef, status := rn.status,
    confidence := rn.confidence, attachments := s.heap.attStore rn.attRef,
    notes := rn.notes, x := 0, y := 0 }

/-- Inspector tag edit on the `i`-th node: `nd.tags = list(dict.fromkeys(...))`
rebinds the field to a freshly allocated list. -/
def opTagEdit (s : HeapState) (i : Nat) (text : String) : HeapState :=
  match s.nodes[i]? with
  | none => s
  | some rn =>
    let r := s.heap.next
    { heap := { writeTagStore s.heap r (pyDictFromKeys (tagPieces text)) with next := s.heap.next + 1 },
      nodes := s.nodes.set i { rn with tagsRef := r } }

/-- Attachment add on the `i`-th node: `it.model.attachments.append(...)`
mutates the existing list in place — same reference, longer list. -/
def opAttachAdd (s : HeapState) (i : Nat) (att : Attachment) : HeapState :=
  match s.nodes[i]? with
  | none => s
  | some rn =>
    { heap := writeAttStore s.heap rn.attRef (s.heap.attStore rn.attRef ++ [att]),
      nodes := s.nodes }

/-- Enrichment on the `i`-th node.  Attachment appends are in-place writes at
the node's existing reference; every executed `nd.tags = nd.tags + [tag]`
rebinds to a fresh list (no tag assignment executes exactly when the final tag
list is unchanged, since each executed append strictly grows the list), so the
tag field ends at a fresh reference precisely when the tag list changed. -/
def opEnrich (ext : ExtLookups) (s : HeapState) (i : Nat) : HeapState :=
  match s.nodes[i]? with
  | none => s
  | some rn =>
    let nd := refNodeData s rn
    let nd' := enrich_selected ext nd
    let h1 := writeAttStore s.heap rn.attRef nd'.attachments
    if nd'.tags = nd.tags then
      { heap := h1,
        nodes := s.nodes.set i { rn with status := nd'.status, confidence := nd'.confidence } }
    else
      { heap := { writeTagStore h1 h1.next nd'.tags with next := h1.next + 1 },
        nodes := s.nodes.set i
          { rn with tagsRef := h1.next, status := nd'.status, confidence := nd'.confidence } }

/-- One step of `import_json` on the heap: the reconstructed node gets two
freshly allocated containers (`tags=list(...)`,
`attachments=[Attachment(**a) ...]`). -/
def importHeapStep (acc : HeapState) (nd : NodeData) : HeapState :=
  { heap :=
      { writeAttStore (writeTagStore acc.heap acc.heap.next nd.tags)
          (acc.heap.next + 1) nd.attachments with next := acc.heap.next + 2 },
    nodes := acc.nodes ++
      [{ id := nd.id, label := nd.label, group := nd.group, status := nd.status,
         confidence := nd.confidence, notes := nd.notes,
         tagsRef := acc.heap.next, attRef := acc.heap.next + 1 }] }

/-- `import_json` on the heap: the node list is reset and every imported node
is rebuilt with fresh containers. -/
def opImportHeap (d : Doc) (s : HeapState) : HeapState :=
  (d.nodes.map importNode).foldl importHeapStep { heap := s.heap, nodes := [] }

/-- No two nodes of the list share a container, and every held reference is a
live (below `nxt`) address. -/
def RefsOk (ns : List RefNode) (nxt : Nat) : Prop :=
  (ns.Pairwise (fun a b => a.tagsRef ≠ b.tagsRef ∧ a.attRef ≠ b.attRef)) ∧
  (∀ rn ∈ ns, rn.tagsRef < nxt ∧ rn.attRef < nxt)

/-- The no-sharing invariant of a heap state. -/
def DistinctRefs (s : HeapState) : Prop :=
  RefsOk s.nodes s.heap.next

/-- A two-node heap state with pairwise distinct live references. -/
def c3wSt : HeapState :=
  { heap := { tagStore := fun _ => [], attStore := fun _ => [], next := 4 },
    nodes := [{ id := "a", label := "A", group := "note", status := "unknown",
                confidence := 50, notes := "", tagsRef := 0, attRef := 1 },
              { id := "b", label := "B", group := "note", status := "unknown",
                confidence := 50, notes := "", tagsRef := 2, attRef := 3 }] }

/-- Saturation: every fact the enrichment run would contribute is already
present on the node.  This is exactly the post-state of one run. -/
def Saturated (ext : ExtLookups) (nd : NodeData) : Prop :=
  ((nd.group = "person" ∧ nd.label ≠ "") →
    ∀ a ∈ ext.personAtts, urlPresent a.url nd.attachments) ∧
  ((nd.group = "domain" ∨ nd.group = "url") → enrichTarget ext nd ≠ "" →
    (∀ c ∈ domainTagCands ext, c ∈ nd.tags) ∧
    (∀ a ∈ ext.domainAtts, urlPresent a.url nd.attachments)) ∧
  (nd.group = "ip" → ∀ a ∈ ext.ipAtts, urlPresent a.url nd.attachments) ∧
  (∀ e ∈ extract_emails ext.findall nd, ("email:" ++ e) ∈ nd.tags)

/-- A document carrying the same edge object twice. -/
def c4Doc : Doc :=
  { nodes := [{ id := some "a" }],
    edges := [{ source := some "a", target := some "a", label := some "r", style := some "solid" },
              { source := some "a", target := some "a", label := some "r", style := some "solid" }] }

/-- A document whose single node carries an out-of-range confidence. -/
def c5Doc : Doc :=
  { nodes := [{ id := some "n1", confidence := some 150 }] }

/-- A document with an edge whose target id matches no node. -/
def c6Doc : Doc :=
  { nodes := [{ id := some "a" }],
    edges := [{ source := some "a", target := some "b", label := some "x", style := some "solid" }] }

/-- A document with two nodes and one well-formed edge between them. -/
def c6wDoc : Doc :=
  { nodes := [{ id := some "a" }, { id := some "b" }],
    edges := [{ source := some "a", target := some "b", label := some "r", style := some "solid" }] }

/-- A document with a dangling edge, used to build a reachable editor state in
which the model graph holds an edge the scene dropped. -/
def c7Doc : Doc :=
  { nodes := [{ id := some "a" }],
    edges := [{ source := some "a", target := some "b", label := some "l", style := some "solid" }] }

/-- A consistent editor state: the scene edge items mirror the model edges. -/
def c7wSt : EditorState :=
  { graphNodes := [{ id := "a" }, { id := "b" }],
    graphEdges := [{ source := "a", target := "b", label := "l", style := "solid" }],
    sceneNodeIds := ["a", "b"],
    sceneEdges := [{ source := "a", target := "b", label := "l", style := "solid" }] }

/-- External responses for the concrete enrichment runs: no lookup data, and a
match function that recognizes exactly one email address. -/
def c10ext : ExtLookups :=
  { personAtts := [], urlTarget := "", whoisRegistrar := none, whoisNS := [],
    dnsRecs := [], domainAtts := [], ipAtts := [],
    findall := fun s => if s = "e@x.com" then ["e@x.com"] else [] }

/-- A fresh note node whose label is an email address. -/
def c10nd : NodeData :=
  { id := "c", label := "e@x.com" }

theorem mem_tagAppend {acc : List String} {t c : String} :
    c ∈ tagAppend acc t ↔ c ∈ acc ∨ c = t := by
  by_cases h : t ∈ acc
  · simp only [tagAppend, if_pos h]
    exact ⟨Or.inl, fun hc => hc.elim id (fun e => e ▸ h)⟩
  · simp [tagAppend, if_neg h]

theorem mem_appendTagsDedup {tags cands : List String} {c : String} :
    c ∈ appendTagsDedup tags cands ↔ c ∈ tags ∨ c ∈ cands := by
  induction cands generalizing tags with
  | nil => simp [appendTagsDedup]
  | cons t ts ih =>
    show c ∈ appendTagsDedup (tagAppend tags t) ts ↔ _
    rw [ih, mem_tagAppend, List.mem_cons]
    tauto

theorem appendTagsDedup_eq_self {tags cands : List String}
    (h : ∀ c ∈ cands, c ∈ tags) : appendTagsDedup tags cands = tags := by
  induction cands with
  | nil => rfl
  | cons t ts ih =>
    show appendTagsDedup (tagAppend tags t) ts = tags
    have ht : tagAppend tags t = tags := by
      simp [tagAppend, h t (List.mem_cons_self t ts)]
    rw [ht]
    exact ih (fun c hc => h c (List.mem_cons_of_mem t hc))

theorem nodup_tagAppend {acc : List String} {t : String} (h : acc.Nodup) :
    (tagAppend acc t).Nodup := by
  by_cases ht : t ∈ acc
  · simpa [tagAppend, ht] using h
  · simp only [tagAppend, if_neg ht]
    refine List.Nodup.append h (List.nodup_singleton t) ?_
    simpa [List.disjoint_singleton] using ht

theorem nodup_appendTagsDedup {tags : List String} (cands : List String)
    (h : tags.Nodup) : (appendTagsDedup tags cands).Nodup := by
  induction cands generalizing tags with
  | nil => exact h
  | cons t ts ih => exact ih (nodup_tagAppend h)

theorem appendTagsDedup_sublist (tags cands : List String) :
    ∃ s, appendTagsDedup tags cands = tags ++ s ∧ s.Sublist cands := by
  induction cands generalizing tags with
  | nil => exact ⟨[], by simp [appendTagsDedup], List.Sublist.refl []⟩
  | cons t ts ih =>
    by_cases ht : t ∈ tags
    · obtain ⟨s, hs, hsub⟩ := ih tags
      refine ⟨s, ?_, hsub.cons t⟩
      show appendTagsDedup (tagAppend tags t) ts = tags ++ s
      rw [show tagAppend tags t = tags by simp [tagAppend, ht]]
      exact hs
    · obtain ⟨s, hs, hsub⟩ := ih (tags ++ [t])
      refine ⟨t :: s, ?_, hsub.cons₂ t⟩
      show appendTagsDedup (tagAppend tags t) ts = tags ++ t :: s
      rw [show tagAppend tags t = tags ++ [t] by simp [tagAppend, ht]]
      rw [hs]
      simp

theorem pyDictFromKeys_nodup (l : List String) : (pyDictFromKeys l).Nodup :=
  nodup_appendTagsDedup l List.nodup_nil

theorem pyDictFromKeys_sublist (l : List String) : (pyDictFromKeys l).Sublist l := by
  obtain ⟨s, hs, hsub⟩ := appendTagsDedup_sublist [] l
  rw [pyDictFromKeys, hs]
  simpa using hsub

theorem mem_pyDictFromKeys {l : List String} {c : String} :
    c ∈ pyDictFromKeys l ↔ c ∈ l := by
  rw [pyDictFromKeys, mem_appendTagsDedup]
  simp

theorem urlPresent_attAppend {acc : List Attachment} {att : Attachment} {u : String} :
    urlPresent u (attAppend acc att) ↔ urlPresent u acc ∨ u = att.url := by
  by_cases h : urlPresent att.url acc
  · simp only [attAppend, if_pos h]
    constructor
    · exact Or.inl
    · rintro (hu | rfl)
      · exact hu
      · exact h
  · unfold attAppend
    rw [if_neg h]
    simp only [urlPresent]
    constructor
    · rintro ⟨a, ha, rfl⟩
      rcases List.mem_append.1 ha with h1 | h1
      · exact Or.inl ⟨a, h1, rfl⟩
      · rcases List.mem_singleton.1 h1 with rfl
        exact Or.inr rfl
    · rintro (⟨a, ha, rfl⟩ | rfl)
      · exact ⟨a, List.mem_append_left _ ha, rfl⟩
      · exact ⟨⟨att.label, att.url⟩, List.mem_append_right _ (List.mem_singleton_self _), rfl⟩

theorem urlPresent_appendAttachmentsDedup {atts cands : List Attachment} {u : String} :
    urlPresent u (appendAttachmentsDedup atts cands) ↔
      urlPresent u atts ∨ ∃ a ∈ cands, u = a.url := by
  induction cands generalizing atts with
  | nil => simp [appendAttachmentsDedup]
  | cons a as ih =>
    show urlPresent u (appendAttachmentsDedup (attAppend atts a) as) ↔ _
    rw [ih, urlPresent_attAppend]
    simp only [List.mem_cons]
    constructor
    · rintro ((h | h) | ⟨b, hb, rfl⟩)
      · exact Or.inl h
      · exact Or.inr ⟨a, Or.inl rfl, h⟩
      · exact Or.inr ⟨b, Or.inr hb, rfl⟩
    · rintro (h | ⟨b, (rfl | hb), rfl⟩)
      · exact Or.inl (Or.inl h)
      · exact Or.inl (Or.inr rfl)
      · exact Or.inr ⟨b, hb, rfl⟩

theorem appendAttachmentsDedup_eq_self {atts cands : List Attachment}
    (h : ∀ a ∈ cands, urlPresent a.url atts) : appendAttachmentsDedup atts cands = atts := by
  induction cands with
  | nil => rfl
  | cons a as ih =>
    show appendAttachmentsDedup (attAppend atts a) as = atts
    have ha : attAppend atts a = atts := by
      simp [attAppend, h a (List.mem_cons_self a as)]
    rw [ha]
    exact ih (fun b hb => h b (List.mem_cons_of_mem a hb))

@[simp] theorem stagePerson_label (ext : ExtLookups) (nd : NodeData) :
    (stagePerson ext nd).label = nd.label := by
  unfold stagePerson; split <;> rfl

@[simp] theorem stagePerson_group (ext : ExtLookups) (nd : NodeData) :
    (stagePerson ext nd).group = nd.group := by
  unfold stagePerson; split <;> rfl

@[simp] theorem stagePerson_notes (ext : ExtLookups) (nd : NodeData) :
    (stagePerson ext nd).notes = nd.notes := by
  unfold stagePerson; split <;> rfl

@[simp] theorem stagePerson_tags (ext : ExtLookups) (nd : NodeData) :
    (stagePerson ext nd).tags = nd.tags := by
  unfold stagePerson; split <;> rfl

@[simp] theorem stagePerson_status (ext : ExtLookups) (nd : NodeData) :
    (stagePerson ext nd).status = nd.status := by
  unfold stagePerson; split <;> rfl

@[simp] theorem stagePerson_confidence (ext : ExtLookups) (nd : NodeData) :
    (stagePerson ext nd).confidence = nd.confidence := by
  unfold stagePerson; split <;> rfl

@[simp] theorem stageDomain_label (ext : ExtLookups) (nd : NodeData) :
    (stageDomain ext nd).label = nd.label := by
  unfold stageDomain; split <;> first | rfl | (split <;> rfl)

@[simp] theorem stageDomain_group (ext : ExtLookups) (nd : NodeData) :
    (stageDomain ext nd).group = nd.group := by
  unfold stageDomain; split <;> first | rfl | (split <;> rfl)

@[simp] theorem stageDomain_notes (ext : ExtLookups) (nd : NodeData) :
    (stageDomain ext nd).notes = nd.notes := by
  unfold stageDomain; split <;> first | rfl | (split <;> rfl)

@[simp] theorem stageDomain_status (ext : ExtLookups) (nd : NodeData) :
    (stageDomain ext nd).status = nd.status := by
  unfold stageDomain; split <;> first | rfl | (split <;> rfl)

@[simp] theorem stageDomain_confidence (ext : ExtLookups) (nd : NodeData) :
    (stageDomain ext nd).confidence = nd.confidence := by
  unfold stageDomain; split <;> first | rfl | (split <;> rfl)

@[simp] theorem stageIp_label (ext : ExtLookups) (nd : NodeData) :
    (stageIp ext nd).label = nd.label := by
  unfold stageIp; split <;> rfl

@[simp] theorem stageIp_group (ext : ExtLookups) (nd : NodeData) :
    (stageIp ext nd).group = nd.group := by
  unfold stageIp; split <;> rfl

@[simp] theorem stageIp_notes (ext : ExtLookups) (nd : NodeData) :
    (stageIp ext nd).notes = nd.notes := by
  unfold stageIp; split <;> rfl

@[simp] theorem stageIp_tags (ext : ExtLookups) (nd : NodeData) :
    (stageIp ext nd).tags = nd.tags := by
  unfold stageIp; split <;> rfl

@[simp] theorem stageIp_status (ext : ExtLookups) (nd : NodeData) :
    (stageIp ext nd).status = nd.status := by
  unfold stageIp; split <;> rfl

@[simp] theorem stageIp_confidence (ext : ExtLookups) (nd : NodeData) :
    (stageIp ext nd).confidence = nd.confidence := by
  unfold stageIp; split <;> rfl

@[simp] theorem stageEmail_label (ext : ExtLookups) (nd : NodeData) :
    (stageEmail ext nd).label = nd.label := by
  unfold stageEmail
  dsimp only
  split <;> rfl

@[simp] theorem stageEmail_group (ext : ExtLookups) (nd : NodeData) :
    (stageEmail ext nd).group = nd.group := by
  unfold stageEmail
  dsimp only
  split <;> rfl

@[simp] theorem stageEmail_notes (ext : ExtLookups) (nd : NodeData) :
    (stageEmail ext nd).notes = nd.notes := by
  unfold stageEmail
  dsimp only
  split <;> rfl

@[simp] theorem stageEmail_attachments (ext : ExtLookups) (nd : NodeData) :
    (stageEmail ext nd).attachments = nd.attachments := by
  unfold stageEmail
  dsimp only
  split <;> rfl

theorem extract_emails_congr (f : String → List String) {nd nd' : NodeData}
    (ha : nd.attachments = nd'.attachments) (hl : nd.label = nd'.label)
    (hn : nd.notes = nd'.notes) : extract_emails f nd = extract_emails f nd' := by
  unfold extract_emails
  rw [ha, hl, hn]

theorem stagePerson_urlPresent_mono (ext : ExtLookups) (nd : NodeData) {u : String}
    (h : urlPresent u nd.attachments) : urlPresent u (stagePerson ext nd).attachments := by
  unfold stagePerson
  split
  · exact urlPresent_appendAttachmentsDedup.2 (Or.inl h)
  · exact h

theorem stageDomain_urlPresent_mono (ext : ExtLookups) (nd : NodeData) {u : String}
    (h : urlPresent u nd.attachments) : urlPresent u (stageDomain ext nd).attachments := by
  unfold stageDomain
  split
  · split
    · exact urlPresent_appendAttachmentsDedup.2 (Or.inl h)
    · exact h
  · exact h

theorem stageIp_urlPresent_mono (ext : ExtLookups) (nd : NodeData) {u : String}
    (h : urlPresent u nd.attachments) : urlPresent u (stageIp ext nd).attachments := by
  unfold stageIp
  split
  · exact urlPresent_appendAttachmentsDedup.2 (Or.inl h)
  · exact h

theorem stageDomain_tags_mono (ext : ExtLookups) (nd : NodeData) {c : String}
    (h : c ∈ nd.tags) : c ∈ (stageDomain ext nd).tags := by
  unfold stageDomain
  split
  · split
    · exact mem_appendTagsDedup.2 (Or.inl h)
    · exact h
  · exact h

theorem stageEmail_tags_mono (ext : ExtLookups) (nd : NodeData) {c : String}
    (h : c ∈ nd.tags) : c ∈ (stageEmail ext nd).tags := by
  unfold stageEmail
  dsimp only
  split
  · exact h
  · exact mem_appendTagsDedup.2 (Or.inl h)

@[simp] theorem enrichPre_label (ext : ExtLookups) (nd : NodeData) :
    (enrichPre ext nd).label = nd.label := by
  simp [enrichPre]

@[simp] theorem enrichPre_group (ext : ExtLookups) (nd : NodeData) :
    (enrichPre ext nd).group = nd.group := by
  simp [enrichPre]

@[simp] theorem enrichPre_notes (ext : ExtLookups) (nd : NodeData) :
    (enrichPre ext nd).notes = nd.notes := by
  simp [enrichPre]

@[simp] theorem enrichPre_status (ext : ExtLookups) (nd : NodeData) :
    (enrichPre ext nd).status = nd.status := by
  simp [enrichPre]

@[simp] theorem enrichPre_confidence (ext : ExtLookups) (nd : NodeData) :
    (enrichPre ext nd).confidence = nd.confidence := by
  simp [enrichPre]

theorem enrich_group (ext : ExtLookups) (nd : NodeData) :
    (enrich_selected ext nd).group = nd.group := by
  simp [enrich_selected]

theorem enrich_label (ext : ExtLookups) (nd : NodeData) :
    (enrich_selected ext nd).label = nd.label := by
  simp [enrich_selected]

theorem enrich_notes (ext : ExtLookups) (nd : NodeData) :
    (enrich_selected ext nd).notes = nd.notes := by
  simp [enrich_selected]

theorem enrich_attachments_pre (ext : ExtLookups) (nd : NodeData) :
    (enrich_selected ext nd).attachments = (enrichPre ext nd).attachments :=
  stageEmail_attachments ext (enrichPre ext nd)

theorem enrichTarget_congr (ext : ExtLookups) {m n : NodeData}
    (hg : m.group = n.group) (hl : m.label = n.label) :
    enrichTarget ext m = enrichTarget ext n := by
  unfold enrichTarget
  rw [hg, hl]

theorem stagePerson_eq_of_sat (ext : ExtLookups) (nd : NodeData)
    (h : (nd.group = "person" ∧ nd.label ≠ "") →
      ∀ a ∈ ext.personAtts, urlPresent a.url nd.attachments) :
    stagePerson ext nd = nd := by
  unfold stagePerson
  split
  · rename_i hc
    rw [appendAttachmentsDedup_eq_self (h hc)]
  · rfl

theorem stageDomain_eq_of_sat (ext : ExtLookups) (nd : NodeData)
    (h : (nd.group = "domain" ∨ nd.group = "url") → enrichTarget ext nd ≠ "" →
      (∀ c ∈ domainTagCands ext, c ∈ nd.tags) ∧
      (∀ a ∈ ext.domainAtts, urlPresent a.url nd.attachments)) :
    stageDomain ext nd = nd := by
  unfold stageDomain
  split
  · rename_i hc
    split
    · rename_i ht
      obtain ⟨h1, h2⟩ := h hc ht
      rw [appendTagsDedup_eq_self h1, appendAttachmentsDedup_eq_self h2]
    · rfl
  · rfl

theorem stageIp_eq_of_sat (ext : ExtLookups) (nd : NodeData)
    (h : nd.group = "ip" → ∀ a ∈ ext.ipAtts, urlPresent a.url nd.attachments) :
    stageIp ext nd = nd := by
  unfold stageIp
  split
  · rename_i hc
    rw [appendAttachmentsDedup_eq_self (h hc)]
  · rfl

theorem stageEmail_tags_atts_of_sat (ext : ExtLookups) (nd : NodeData)
    (h : ∀ e ∈ extract_emails ext.findall nd, ("email:" ++ e) ∈ nd.tags) :
    (stageEmail ext nd).tags = nd.tags ∧ (stageEmail ext nd).attachments = nd.attachments := by
  unfold stageEmail
  dsimp only
  split
  · exact ⟨rfl, rfl⟩
  · refine ⟨?_, rfl⟩
    show appendTagsDedup nd.tags _ = nd.tags
    apply appendTagsDedup_eq_self
    intro c hc
    obtain ⟨e, he, rfl⟩ := List.mem_map.1 hc
    exact h e he

theorem enrich_no_change_of_sat (ext : ExtLookups) (nd : NodeData) (h : Saturated ext nd) :
    (enrich_selected ext nd).tags = nd.tags ∧
    (enrich_selected ext nd).attachments = nd.attachments := by
  obtain ⟨h1, h2, h3, h4⟩ := h
  have hpre : enrichPre ext nd = nd := by
    unfold enrichPre
    rw [stagePerson_eq_of_sat ext nd h1, stageDomain_eq_of_sat ext nd h2,
      stageIp_eq_of_sat ext nd h3]
  show (stageEmail ext (enrichPre ext nd)).tags = nd.tags ∧
    (stageEmail ext (enrichPre ext nd)).attachments = nd.attachments
  rw [hpre]
  exact stageEmail_tags_atts_of_sat ext nd h4

theorem saturated_enrich (ext : ExtLookups) (nd : NodeData) :
    Saturated ext (enrich_selected ext nd) := by
  refine ⟨?_, ?_, ?_, ?_⟩
  · intro hc a ha
    have hg : nd.group = "person" := by rw [enrich_group] at hc; exact hc.1
    have hl : nd.label ≠ "" := by rw [enrich_label] at hc; exact hc.2
    rw [enrich_attachments_pre]
    unfold enrichPre
    apply stageIp_urlPresent_mono
    apply stageDomain_urlPresent_mono
    unfold stagePerson
    rw [if_pos ⟨hg, hl⟩]
    exact urlPresent_appendAttachmentsDedup.2 (Or.inr ⟨a, ha, rfl⟩)
  · intro hc ht
    rw [enrich_group] at hc
    have ht' : enrichTarget ext nd ≠ "" := by
      rw [enrichTarget_congr ext (enrich_group ext nd) (enrich_label ext nd)] at ht
      exact ht
    have hc1 : (stagePerson ext nd).group = "domain" ∨ (stagePerson ext nd).group = "url" := by
      rw [stagePerson_group]; exact hc
    have ht1 : enrichTarget ext (stagePerson ext nd) ≠ "" := by
      rw [enrichTarget_congr ext (stagePerson_group ext nd) (stagePerson_label ext nd)]
      exact ht'
    constructor
    · intro c hcand
      show c ∈ (stageEmail ext (enrichPre ext nd)).tags
      apply stageEmail_tags_mono
      unfold enrichPre
      rw [stageIp_tags]
      unfold stageDomain
      rw [if_pos hc1, if_pos ht1]
      exact mem_appendTagsDedup.2 (Or.inr hcand)
    · intro a ha
      rw [enrich_attachments_pre]
      unfold enrichPre
      apply stageIp_urlPresent_mono
      unfold stageDomain
      rw [if_pos hc1, if_pos ht1]
      exact urlPresent_appendAttachmentsDedup.2 (Or.inr ⟨a, ha, rfl⟩)
  · intro hc a ha
    rw [enrich_group] at hc
    have hc2 : (stageDomain ext (stagePerson ext nd)).group = "ip" := by
      rw [stageDomain_group, stagePerson_group]; exact hc
    rw [enrich_attachments_pre]
    unfold enrichPre
    unfold stageIp
    rw [if_pos hc2]
    exact urlPresent_appendAttachmentsDedup.2 (Or.inr ⟨a, ha, rfl⟩)
  · intro e he
    have hEE : extract_emails ext.findall (enrich_selected ext nd) =
        extract_emails ext.findall (enrichPre ext nd) :=
      extract_emails_congr ext.findall (stageEmail_attachments ext (enrichPre ext nd))
        (stageEmail_label ext (enrichPre ext nd)) (stageEmail_notes ext (enrichPre ext nd))
    rw [hEE] at he
    show ("email:" ++ e) ∈ (stageEmail ext (enrichPre ext nd)).tags
    unfold stageEmail
    dsimp only
    split
    · rename_i hE
      rw [hE] at he
      exact absurd he (List.not_mem_nil e)
    · exact mem_appendTagsDedup.2 (Or.inr (List.mem_map_of_mem _ he))

/-- C1: for every node and every fixed set of external lookup results, running
`enrich_selected` twice yields the same tag list and the same attachment list
after the second run as after the first — the second run is a no-op on tags
and attachments. -/
theorem c1_enrich_idempotent (ext : ExtLookups) (nd : NodeData) :
    (enrich_selected ext (enrich_selected ext nd)).tags = (enrich_selected ext nd).tags ∧
    (enrich_selected ext (enrich_selected ext nd)).attachments =
      (enrich_selected ext nd).attachments :=
  enrich_no_change_of_sat ext (enrich_selected ext nd) (saturated_enrich ext nd)

theorem appendTagsDedup_cons (tags : List String) (t : String) (ts : List String) :
    appendTagsDedup tags (t :: ts) = appendTagsDedup (tagAppend tags t) ts := rfl

theorem appendTagsDedup_cons_acc (x : String) (acc l : List String) :
    appendTagsDedup (x :: acc) l = x :: appendTagsDedup acc (l.filter (fun y => y ≠ x)) := by
  induction l generalizing acc with
  | nil => simp [appendTagsDedup]
  | cons t ts ih =>
    rw [appendTagsDedup_cons]
    by_cases htx : t = x
    · subst htx
      rw [show tagAppend (t :: acc) t = t :: acc by simp [tagAppend], ih,
        show (t :: ts).filter (fun y => y ≠ t) = ts.filter (fun y => y ≠ t) by simp]
    · rw [show (t :: ts).filter (fun y => y ≠ x) = t :: ts.filter (fun y => y ≠ x) by
        simp [htx]]
      rw [appendTagsDedup_cons acc t]
      by_cases hta : t ∈ acc
      · rw [show tagAppend (x :: acc) t = x :: acc by simp [tagAppend, hta], ih,
          show tagAppend acc t = acc by simp [tagAppend, hta]]
      · rw [show tagAppend (x :: acc) t = x :: (acc ++ [t]) by
            simp [tagAppend, hta, htx], ih,
          show tagAppend acc t = acc ++ [t] by simp [tagAppend, hta]]

theorem pyDictFromKeys_cons (x : String) (l : List String) :
    pyDictFromKeys (x :: l) = x :: pyDictFromKeys (l.filter (fun y => y ≠ x)) := by
  show appendTagsDedup (tagAppend [] x) l = _
  rw [show tagAppend [] x = x :: ([] : List String) by simp [tagAppend]]
  exact appendTagsDedup_cons_acc x [] l

/-- C9: the inspector tags write-back replaces the selected node's tag list
with the comma-split, trimmed, blank-free, first-occurrence-deduplicated form
of the field text; the result has no duplicates, is a subsequence of the
trimmed pieces (so relative order is the original order), contains exactly the
piece values, and keeps each first occurrence in its original position (the
recursion law). -/
theorem c9_tags_writeback :
    (∀ (f : UIForm) (nd : NodeData),
      (update_selected_from_ui f nd).tags = pyDictFromKeys (tagPieces f.tagsText)) ∧
    (∀ l : List String, (pyDictFromKeys l).Nodup) ∧
    (∀ l : List String, (pyDictFromKeys l).Sublist l) ∧
    (∀ (l : List String) (c : String), c ∈ pyDictFromKeys l ↔ c ∈ l) ∧
    (∀ (x : String) (l : List String),
      pyDictFromKeys (x :: l) = x :: pyDictFromKeys (l.filter (fun y => y ≠ x))) :=
  ⟨fun _ _ => rfl, pyDictFromKeys_nodup, pyDictFromKeys_sublist,
    fun _ _ => mem_pyDictFromKeys, pyDictFromKeys_cons⟩

/-- C5 counterexample: importing a document whose node carries
`confidence = 150` yields a node whose confidence lies outside `[0, 100]` —
the importer does not apply the interactive clamp. -/
theorem c5_counterexample :
    ∃ n ∈ (import_json c5Doc).nodes, ¬(0 ≤ n.confidence ∧ n.confidence ≤ 100) := by
  decide

/-- C5 amended: import coerces confidence with `int(...)` but performs no
clamping — the imported value is the document's integer (default 50 when the
key is absent) and may lie outside `[0, 100]`; only the interactive write-back
clamps to `[0, 100]` and resets to 50 on parse failure. -/
theorem c5_amended :
    (∀ n : DocNode, (importNode n).confidence = n.confidence.getD 50) ∧
    (∀ (f : UIForm) (nd : NodeData),
      0 ≤ (update_selected_from_ui f nd).confidence ∧
        (update_selected_from_ui f nd).confidence ≤ 100) := by
  refine ⟨fun n => rfl, fun f nd => ?_⟩
  unfold update_selected_from_ui
  rcases f.confParsed with _ | v
  · exact ⟨by norm_num, by norm_num⟩
  · exact ⟨le_max_left 0 _, max_le (by norm_num) (min_le_left _ _)⟩

theorem importNode_nodeToDoc (n : NodeData) : importNode (nodeToDoc n) = n := by
  cases n with
  | mk id label group tags status confidence attachments notes x y =>
    simp only [importNode, nodeToDoc, Option.getD_some, List.map_map]
    congr 1
    exact List.map_id attachments

theorem importEdge_edgeToDoc (e : EdgeData) : importEdge (edgeToDoc e) = e := rfl

theorem import_export (G : GraphData) :
    import_json { nodes := G.nodes.map nodeToDoc, edges := G.edges.map edgeToDoc } = G := by
  cases G with
  | mk ns es =>
    unfold import_json
    simp only [List.map_map]
    congr 1
    · have h : ∀ l : List NodeData, l.map (fun n => importNode (nodeToDoc n)) = l := by
        intro l
        induction l with
        | nil => rfl
        | cons a t ih => simp [ih, importNode_nodeToDoc]
      exact h ns
    · exact List.map_id es

/-- C2: exporting a graph and importing the produced document yields a graph
equal in every node and edge field to the graph as it stood after export's
position flush (which is the state of the original graph once `export_json`
returns); with the model's exact numeric positions the round trip is exact,
hence in particular within any floating-point tolerance. -/
theorem c2_round_trip (pos : String → Option (Rat × Rat)) (g : GraphData) :
    import_json (export_json pos g) = flushPositions pos g :=
  import_export (flushPositions pos g)

/-- C4 counterexample: importing a document that carries the same edge object
twice yields a model edge sequence with two edges of the same
(source, target, label) triple — import performs no duplicate check. -/
theorem c4_counterexample : ¬ ((import_json c4Doc).edges.map edgeTriple).Nodup := by
  decide

/-- C4 amended: the gesture path `_model_add_edge` does keep the edge
sequence's triples duplicate-free and never appends an already-present triple,
but `import_json` appends every document edge verbatim (and so can introduce
duplicate triples, as the counterexample shows). -/
theorem c4_amended (edges : List EdgeData) (ed : EdgeData)
    (h : (edges.map edgeTriple).Nodup) :
    ((model_add_edge edges ed).map edgeTriple).Nodup ∧
    (edgeTriple ed ∈ edges.map edgeTriple → model_add_edge edges ed = edges) ∧
    (∀ d : Doc, (import_json d).edges = d.edges.map importEdge) := by
  have hiff : (∃ e ∈ edges, e.source = ed.source ∧ e.target = ed.target ∧ e.label = ed.label) ↔
      edgeTriple ed ∈ edges.map edgeTriple := by
    rw [List.mem_map]
    constructor
    · rintro ⟨e, he, h1, h2, h3⟩
      exact ⟨e, he, by simp [edgeTriple, h1, h2, h3]⟩
    · rintro ⟨e, he, heq⟩
      simp only [edgeTriple, Prod.mk.injEq] at heq
      exact ⟨e, he, heq.1, heq.2.1, heq.2.2⟩
  by_cases hdup : ∃ e ∈ edges, e.source = ed.source ∧ e.target = ed.target ∧ e.label = ed.label
  · rw [model_add_edge, if_pos hdup]
    exact ⟨h, fun _ => rfl, fun _ => rfl⟩
  · rw [model_add_edge, if_neg hdup]
    refine ⟨?_, fun hmem => absurd (hiff.2 hmem) hdup, fun _ => rfl⟩
    rw [List.map_append]
    refine List.Nodup.append h (List.nodup_singleton _) ?_
    intro t ht hts
    rcases List.mem_singleton.1 hts with rfl
    exact hdup (hiff.2 ht)

/-- C4 witness: a graph holding one edge, offered the same triple again
through the gesture path, keeps its single edge and stays duplicate-free. -/
theorem c4_witness :
    ((model_add_edge [{ source := "a", target := "b", label := "r", style := "solid" }]
        { source := "a", target := "b", label := "r", style := "solid" }).map edgeTriple).Nodup ∧
    model_add_edge [{ source := "a", target := "b", label := "r", style := "solid" }]
        { source := "a", target := "b", label := "r", style := "solid" } =
      [{ source := "a", target := "b", label := "r", style := "solid" }] := by
  have h := c4_amended [{ source := "a", target := "b", label := "r", style := "solid" }]
    { source := "a", target := "b", label := "r", style := "solid" } (by decide)
  exact ⟨h.1, h.2.1 (by decide)⟩

/-- C6 counterexample: after importing a document whose edge references the
missing node id `"b"`, the model graph still contains that edge — only the
scene drops it. -/
theorem c6_counterexample :
    ∃ e ∈ (import_json c6Doc).edges, e.target ∉ nodeIds (import_json c6Doc).nodes := by
  decide

/-- C6 amended: import never raises on a dangling edge and the *scene* edge
list after import contains no edge referencing a missing node id
(`GraphScene.add_edge` silently returns `None` for it); the model graph's edge
sequence, however, keeps the dangling edge (see the counterexample). -/
theorem c6_amended (d : Doc) :
    ∀ e ∈ importSceneEdges d,
      e.source ∈ nodeIds (import_json d).nodes ∧ e.target ∈ nodeIds (import_json d).nodes := by
  intro e he
  have hp := List.of_mem_filter he
  exact of_decide_eq_true hp

/-- C6 witness: a well-formed edge between two imported nodes is kept by the
scene, and both its endpoints are imported node ids. -/
theorem c6_witness :
    ({ source := "a", target := "b", label := "r", style := "solid" } : EdgeData).source ∈
        nodeIds (import_json c6wDoc).nodes ∧
    ({ source := "a", target := "b", label := "r", style := "solid" } : EdgeData).target ∈
        nodeIds (import_json c6wDoc).nodes :=
  c6_amended c6wDoc { source := "a", target := "b", label := "r", style := "solid" } (by decide)

/-- C8: the connection gesture from `ArmedWithSource(src)`: clicking the armed
source itself returns to idle and changes neither the model nor the scene
edges; clicking a different node `nid` returns to idle, appends a scene edge
(src, nid, label, "solid"), and hands that edge to `_model_add_edge` (which
appends it exactly when its triple is new); a cancelled label prompt still
creates the edge, with the empty label. -/
theorem c8_gesture (ges sc : List EdgeData) (src nid : String) (prompt : Option String) :
    (edge_click { armed := some src, graphEdges := ges, sceneEdges := sc } src prompt =
      { armed := none, graphEdges := ges, sceneEdges := sc }) ∧
    (nid ≠ src →
      edge_click { armed := some src, graphEdges := ges, sceneEdges := sc } nid prompt =
        { armed := none,
          graphEdges := model_add_edge ges
            { source := src, target := nid, label := prompt.getD "", style := "solid" },
          sceneEdges := sc ++
            [{ source := src, target := nid, label := prompt.getD "", style := "solid" }] }) ∧
    (nid ≠ src →
      edge_click { armed := some src, graphEdges := ges, sceneEdges := sc } nid none =
        { armed := none,
          graphEdges := model_add_edge ges
            { source := src, target := nid, label := "", style := "solid" },
          sceneEdges := sc ++
            [{ source := src, target := nid, label := "", style := "solid" }] }) := by
  refine ⟨?_, ?_, ?_⟩
  · show (if src = src then _ else _) = _
    rw [if_pos rfl]
  · intro h
    show (if nid = src then _ else _) = _
    rw [if_neg h]
  · intro h
    show (if nid = src then _ else _) = _
    rw [if_neg h]
    rfl

/-- C8 witness: with source "a" armed, clicking "a" cancels without an edge;
clicking "b" with a cancelled prompt creates the (a, b, "", solid) edge in
both the model and the scene. -/
theorem c8_witness :
    (edge_click { armed := some "a", graphEdges := [], sceneEdges := [] } "a" none =
      { armed := none, graphEdges := [], sceneEdges := [] }) ∧
    (edge_click { armed := some "a", graphEdges := [], sceneEdges := [] } "b" none =
      { armed := none,
        graphEdges := [{ source := "a", target := "b", label := "", style := "solid" }],
        sceneEdges := [{ source := "a", target := "b", label := "", style := "solid" }] }) := by
  have h := c8_gesture [] [] "a" "b" none
  exact ⟨h.1, (h.2.2 (by decide)).trans (by decide)⟩

/-- C10: when the enrichment run finds at least one email address (scanning
the node's label, notes and attachments as they stand at the email step), an
`unknown` status is promoted to `suspected` (any other status is unchanged)
and the confidence becomes the maximum of its prior value and 60 — in
particular it is never lowered. -/
theorem c10_email_promotion (ext : ExtLookups) (nd : NodeData)
    (h : extract_emails ext.findall (enrichPre ext nd) ≠ []) :
    (enrich_selected ext nd).status =
      (if nd.status = "unknown" then "suspected" else nd.status) ∧
    (enrich_selected ext nd).confidence = max nd.confidence 60 ∧
    nd.confidence ≤ (enrich_selected ext nd).confidence := by
  show (stageEmail ext (enrichPre ext nd)).status = _ ∧
    (stageEmail ext (enrichPre ext nd)).confidence = _ ∧
    _ ≤ (stageEmail ext (enrichPre ext nd)).confidence
  unfold stageEmail
  dsimp only
  rw [if_neg h]
  refine ⟨?_, ?_, ?_⟩
  · show (if (enrichPre ext nd).status = "unknown" then "suspected"
        else (enrichPre ext nd).status) = _
    rw [enrichPre_status]
  · show max (enrichPre ext nd).confidence 60 = max nd.confidence 60
    rw [enrichPre_confidence]
  · show nd.confidence ≤ max (enrichPre ext nd).confidence 60
    rw [enrichPre_confidence]
    exact le_max_left _ _

/-- C10 witness: a fresh `unknown` node whose label is an email address ends
`suspected` with confidence 60 after enrichment. -/
theorem c10_witness :
    (enrich_selected c10ext c10nd).status = "suspected" ∧
    (enrich_selected c10ext c10nd).confidence = 60 := by
  have h := c10_email_promotion c10ext c10nd (by decide)
  exact ⟨h.1.trans (by decide), h.2.1.trans (by decide)⟩

theorem mem_nodeIds {ns : List NodeData} {i : String} :
    i ∈ nodeIds ns ↔ ∃ n ∈ ns, n.id = i := by
  unfold nodeIds
  rw [List.mem_map]

theorem mem_model_delete_edge {edges : List EdgeData} {s t l : String} {e : EdgeData} :
    e ∈ model_delete_edge edges s t l ↔
      e ∈ edges ∧ ¬(e.source = s ∧ e.target = t ∧ e.label = l) := by
  unfold model_delete_edge
  rw [List.mem_filter]
  simp
  tauto

theorem mem_foldl_delete {L ges : List EdgeData} {e : EdgeData} :
    e ∈ L.foldl (fun g se => model_delete_edge g se.source se.target se.label) ges ↔
      e ∈ ges ∧
        ∀ se ∈ L, ¬(e.source = se.source ∧ e.target = se.target ∧ e.label = se.label) := by
  induction L generalizing ges with
  | nil => simp
  | cons se ses ih =>
    rw [List.foldl_cons, ih, mem_model_delete_edge]
    constructor
    · rintro ⟨⟨he, hne⟩, hall⟩
      refine ⟨he, fun se' hse' => ?_⟩
      rcases List.mem_cons.1 hse' with rfl | h
      · exact hne
      · exact hall se' h
    · rintro ⟨he, hall⟩
      exact ⟨⟨he, hall se (List.mem_cons_self se ses)⟩,
        fun se' h => hall se' (List.mem_cons_of_mem se h)⟩

/-- C7 counterexample: import a document with node "a" and the dangling edge
(a, b, l); the scene drops the edge item but the model keeps the edge, so
deleting node "a" removes no edge — an edge with source "a" survives the
deletion in the model graph. -/
theorem c7_counterexample :
    ∃ e ∈ (deleteNode (importState c7Doc) "a").graphEdges,
      e.source = "a" ∨ e.target = "a" := by
  decide

/-- C7 amended: provided every model edge incident to the deleted node has a
matching scene edge item (which holds whenever scene and model are in sync —
it fails only for model edges the scene dropped, e.g. dangling edges that came
in through import), deleting the node removes every incident edge from the
model; and if additionally no edge referenced a missing node id before the
deletion, none does afterwards. -/
theorem c7_amended (st : EditorState) (nid : String)
    (hcov : ∀ e ∈ st.graphEdges, (e.source = nid ∨ e.target = nid) →
      ∃ se ∈ st.sceneEdges, se.source = e.source ∧ se.target = e.target ∧ se.label = e.label)
    (hdang : ∀ e ∈ st.graphEdges,
      e.source ∈ nodeIds st.graphNodes ∧ e.target ∈ nodeIds st.graphNodes) :
    (∀ e ∈ (deleteNode st nid).graphEdges, e.source ≠ nid ∧ e.target ≠ nid) ∧
    (∀ e ∈ (deleteNode st nid).graphEdges,
      e.source ∈ nodeIds (deleteNode st nid).graphNodes ∧
      e.target ∈ nodeIds (deleteNode st nid).graphNodes) := by
  have hED : (deleteNode st nid).graphEdges =
      (st.sceneEdges.filter (fun e => e.source == nid || e.target == nid)).foldl
        (fun g se => model_delete_edge g se.source se.target se.label) st.graphEdges := rfl
  have hND : (deleteNode st nid).graphNodes = st.graphNodes.filter (fun n => n.id != nid) := rfl
  have hmain : ∀ e ∈ (deleteNode st nid).graphEdges,
      e ∈ st.graphEdges ∧ e.source ≠ nid ∧ e.target ≠ nid := by
    intro e he
    rw [hED] at he
    obtain ⟨he0, hall⟩ := mem_foldl_delete.1 he
    have key : ¬(e.source = nid ∨ e.target = nid) := by
      intro hor
      obtain ⟨se, hse, h1, h2, h3⟩ := hcov e he0 hor
      have hinc : se ∈ st.sceneEdges.filter (fun e => e.source == nid || e.target == nid) := by
        rw [List.mem_filter]
        refine ⟨hse, ?_⟩
        rcases hor with h | h
        · simp [h1, h]
        · simp [h2, h]
      exact hall se hinc ⟨h1.symm, h2.symm, h3.symm⟩
    exact ⟨he0, fun h => key (Or.inl h), fun h => key (Or.inr h)⟩
  refine ⟨fun e he => (hmain e he).2, fun e he => ?_⟩
  obtain ⟨he0, hs, ht⟩ := hmain e he
  obtain ⟨hds, hdt⟩ := hdang e he0
  rw [hND]
  constructor
  · rw [mem_nodeIds] at hds ⊢
    obtain ⟨n, hn, hni⟩ := hds
    refine ⟨n, ?_, hni⟩
    rw [List.mem_filter]
    exact ⟨hn, by simp [hni, hs]⟩
  · rw [mem_nodeIds] at hdt ⊢
    obtain ⟨n, hn, hni⟩ := hdt
    refine ⟨n, ?_, hni⟩
    rw [List.mem_filter]
    exact ⟨hn, by simp [hni, ht]⟩

/-- C7 witness: in a consistent two-node state with one mirrored edge,
deleting node "a" leaves a model edge list with no edge touching "a" and no
dangling endpoint. -/
theorem c7_witness :
    (∀ e ∈ (deleteNode c7wSt "a").graphEdges, e.source ≠ "a" ∧ e.target ≠ "a") ∧
    (∀ e ∈ (deleteNode c7wSt "a").graphEdges,
      e.source ∈ nodeIds (deleteNode c7wSt "a").graphNodes ∧
      e.target ∈ nodeIds (deleteNode c7wSt "a").graphNodes) :=
  c7_amended c7wSt "a" (by decide) (by decide)

theorem refsOk_iff {ns : List RefNode} {nxt : Nat} : RefsOk ns nxt ↔
    (∀ (i j : Nat) (a b : RefNode), i ≠ j → ns[i]? = some a → ns[j]? = some b →
      a.tagsRef ≠ b.tagsRef ∧ a.attRef ≠ b.attRef) ∧
    (∀ (i : Nat) (a : RefNode), ns[i]? = some a → a.tagsRef < nxt ∧ a.attRef < nxt) := by
  constructor
  · rintro ⟨hp, hb⟩
    constructor
    · intro i j a b hij ha hb'
      obtain ⟨hi, rfl⟩ := List.getElem?_eq_some.1 ha
      obtain ⟨hj, rfl⟩ := List.getElem?_eq_some.1 hb'
      rcases Nat.lt_or_ge i j with h | h
      · exact (List.pairwise_iff_getElem.1 hp) i j hi hj h
      · have hj' : j < i := lt_of_le_of_ne h (Ne.symm hij)
        have hr := (List.pairwise_iff_getElem.1 hp) j i hj hi hj'
        exact ⟨hr.1.symm, hr.2.symm⟩
    · intro i a ha
      exact hb a (List.getElem?_mem ha)
  · rintro ⟨hp, hb⟩
    constructor
    · rw [List.pairwise_iff_getElem]
      intro i j hi hj hij
      exact hp i j _ _ (Nat.ne_of_lt hij) (List.getElem?_eq_some.2 ⟨hi, rfl⟩)
        (List.getElem?_eq_some.2 ⟨hj, rfl⟩)
    · intro a ha
      obtain ⟨i, hi⟩ := List.mem_iff_getElem?.1 ha
      exact hb i a hi

theorem getElem?_set_cases {ns : List RefNode} {i k : Nat} {rn rn' a : RefNode}
    (hi : ns[i]? = some rn) (hk : (ns.set i rn')[k]? = some a) :
    (k = i ∧ a = rn') ∨ (k ≠ i ∧ ns[k]? = some a) := by
  by_cases hki : k = i
  · subst hki
    left
    have hlen : k < ns.length := (List.getElem?_eq_some.1 hi).1
    rw [List.getElem?_set_eq_of_lt rn' hlen] at hk
    exact ⟨rfl, (Option.some.inj hk).symm⟩
  · right
    exact ⟨hki, by rwa [List.getElem?_set_ne (Ne.symm hki)] at hk⟩

theorem refsOk_set_fresh {ns : List RefNode} {nxt i : Nat} {rn rn' : RefNode}
    (hi : ns[i]? = some rn) (ht : rn'.tagsRef = nxt) (ha : rn'.attRef = rn.attRef)
    (hd : RefsOk ns nxt) : RefsOk (ns.set i rn') (nxt + 1) := by
  rw [refsOk_iff] at hd ⊢
  obtain ⟨hp, hb⟩ := hd
  constructor
  · intro k m a b hkm hk hm
    rcases getElem?_set_cases hi hk with ⟨hk1, rfl⟩ | ⟨hk1, hk2⟩ <;>
      rcases getElem?_set_cases hi hm with ⟨hm1, rfl⟩ | ⟨hm1, hm2⟩
    · exact absurd (hk1.trans hm1.symm) hkm
    · have hbb := hb m b hm2
      refine ⟨?_, ?_⟩
      · rw [ht]
        exact (Nat.ne_of_lt hbb.1).symm
      · rw [ha]
        exact (hp i m rn b (Ne.symm hm1) hi hm2).2
    · have hbb := hb k a hk2
      refine ⟨?_, ?_⟩
      · rw [ht]
        exact Nat.ne_of_lt hbb.1
      · rw [ha]
        exact (hp k i a rn hk1 hk2 hi).2
    · exact hp k m a b hkm hk2 hm2
  · intro k a hk
    rcases getElem?_set_cases hi hk with ⟨_, rfl⟩ | ⟨_, hk2⟩
    · refine ⟨?_, ?_⟩
      · rw [ht]
        exact Nat.lt_succ_self nxt
      · rw [ha]
        exact Nat.lt_succ_of_lt (hb i rn hi).2
    · have hba := hb k a hk2
      exact ⟨Nat.lt_succ_of_lt hba.1, Nat.lt_succ_of_lt hba.2⟩

theorem refsOk_set_same {ns : List RefNode} {nxt i : Nat} {rn rn' : RefNode}
    (hi : ns[i]? = some rn) (ht : rn'.tagsRef = rn.tagsRef) (ha : rn'.attRef = rn.attRef)
    (hd : RefsOk ns nxt) : RefsOk (ns.set i rn') nxt := by
  rw [refsOk_iff] at hd ⊢
  obtain ⟨hp, hb⟩ := hd
  constructor
  · intro k m a b hkm hk hm
    rcases getElem?_set_cases hi hk with ⟨hk1, rfl⟩ | ⟨hk1, hk2⟩ <;>
      rcases getElem?_set_cases hi hm with ⟨hm1, rfl⟩ | ⟨hm1, hm2⟩
    · exact absurd (hk1.trans hm1.symm) hkm
    · have hr := hp i m rn b (Ne.symm hm1) hi hm2
      rw [ht, ha]
      exact hr
    · have hr := hp k i a rn hk1 hk2 hi
      rw [ht, ha]
      exact hr
    · exact hp k m a b hkm hk2 hm2
  · intro k a hk
    rcases getElem?_set_cases hi hk with ⟨_, rfl⟩ | ⟨_, hk2⟩
    · rw [ht, ha]
      exact hb i rn hi
    · exact hb k a hk2

theorem refsOk_append_fresh {ns : List RefNode} {nxt : Nat} {new : RefNode}
    (h1 : new.tagsRef = nxt) (h2 : new.attRef = nxt + 1) (hd : RefsOk ns nxt) :
    RefsOk (ns ++ [new]) (nxt + 2) := by
  obtain ⟨hp, hb⟩ := hd
  constructor
  · rw [List.pairwise_append]
    refine ⟨hp, List.pairwise_singleton _ _, ?_⟩
    intro a ha b hbm
    rcases List.mem_singleton.1 hbm with rfl
    have hba := hb a ha
    refine ⟨?_, ?_⟩
    · rw [h1]
      exact Nat.ne_of_lt hba.1
    · rw [h2]
      exact Nat.ne_of_lt (Nat.lt_succ_of_lt hba.2)
  · intro rn hm
    rcases List.mem_append.1 hm with h | h
    · have hba := hb rn h
      exact ⟨by omega, by omega⟩
    · rcases List.mem_singleton.1 h with rfl
      rw [h1, h2]
      exact ⟨by omega, by omega⟩

theorem distinctRefs_opTagEdit (s : HeapState) (hd : DistinctRefs s) (i : Nat) (text : String) :
    DistinctRefs (opTagEdit s i text) := by
  unfold opTagEdit
  cases hsi : s.nodes[i]? with
  | none => exact hd
  | some rn => exact refsOk_set_fresh hsi rfl rfl hd

theorem distinctRefs_opAttachAdd (s : HeapState) (hd : DistinctRefs s) (i : Nat)
    (att : Attachment) : DistinctRefs (opAttachAdd s i att) := by
  unfold opAttachAdd
  cases hsi : s.nodes[i]? with
  | none => exact hd
  | some rn => exact hd

theorem distinctRefs_opEnrich (ext : ExtLookups) (s : HeapState) (hd : DistinctRefs s)
    (i : Nat) : DistinctRefs (opEnrich ext s i) := by
  unfold opEnrich
  cases hsi : s.nodes[i]? with
  | none => exact hd
  | some rn =>
    dsimp only
    split
    · exact refsOk_set_same hsi rfl rfl hd
    · exact refsOk_set_fresh hsi rfl rfl hd

theorem distinctRefs_importHeapStep (acc : HeapState) (hd : DistinctRefs acc) (nd : NodeData) :
    DistinctRefs (importHeapStep acc nd) :=
  refsOk_append_fresh rfl rfl hd

theorem distinctRefs_import_fold (l : List NodeData) (acc : HeapState) (hd : DistinctRefs acc) :
    DistinctRefs (l.foldl importHeapStep acc) := by
  induction l generalizing acc with
  | nil => exact hd
  | cons nd t ih => exact ih _ (distinctRefs_importHeapStep acc hd nd)

theorem distinctRefs_opImportHeap (d : Doc) (s : HeapState) :
    DistinctRefs (opImportHeap d s) :=
  distinctRefs_import_fold _ _ ⟨List.Pairwise.nil, fun rn h => absurd h (List.not_mem_nil rn)⟩

theorem opTagEdit_other (s : HeapState) (hd : DistinctRefs s) {i j : Nat} (hij : i ≠ j)
    (text : String) :
    tagsOfIdx (opTagEdit s i text) j = tagsOfIdx s j ∧
    attsOfIdx (opTagEdit s i text) j = attsOfIdx s j := by
  unfold opTagEdit
  cases hsi : s.nodes[i]? with
  | none => exact ⟨rfl, rfl⟩
  | some rn =>
    unfold tagsOfIdx attsOfIdx
    dsimp only
    rw [List.getElem?_set_ne hij]
    cases hsj : s.nodes[j]? with
    | none => exact ⟨rfl, rfl⟩
    | some rnj =>
      refine ⟨?_, rfl⟩
      show (if rnj.tagsRef = s.heap.next then _ else s.heap.tagStore rnj.tagsRef) = _
      rw [if_neg (Nat.ne_of_lt (hd.2 rnj (List.getElem?_mem hsj)).1)]

theorem opAttachAdd_other (s : HeapState) (hd : DistinctRefs s) {i j : Nat} (hij : i ≠ j)
    (att : Attachment) :
    tagsOfIdx (opAttachAdd s i att) j = tagsOfIdx s j ∧
    attsOfIdx (opAttachAdd s i att) j = attsOfIdx s j := by
  unfold opAttachAdd
  cases hsi : s.nodes[i]? with
  | none => exact ⟨rfl, rfl⟩
  | some rn =>
    unfold tagsOfIdx attsOfIdx
    dsimp only
    cases hsj : s.nodes[j]? with
    | none => exact ⟨rfl, rfl⟩
    | some rnj =>
      refine ⟨rfl, ?_⟩
      show (if rnj.attRef = rn.attRef then _ else s.heap.attStore rnj.attRef) = _
      rw [if_neg ((refsOk_iff.1 hd).1 j i rnj rn (Ne.symm hij) hsj hsi).2]

theorem opEnrich_other (ext : ExtLookups) (s : HeapState) (hd : DistinctRefs s) {i j : Nat}
    (hij : i ≠ j) :
    tagsOfIdx (opEnrich ext s i) j = tagsOfIdx s j ∧
    attsOfIdx (opEnrich ext s i) j = attsOfIdx s j := by
  unfold opEnrich
  cases hsi : s.nodes[i]? with
  | none => exact ⟨rfl, rfl⟩
  | some rn =>
    dsimp only
    have hstore : ∀ (rnj : RefNode), s.nodes[j]? = some rnj →
        (writeAttStore s.heap rn.attRef
            (enrich_selected ext (refNodeData s rn)).attachments).attStore rnj.attRef =
          s.heap.attStore rnj.attRef := by
      intro rnj hsj
      show (if rnj.attRef = rn.attRef then _ else s.heap.attStore rnj.attRef) = _
      rw [if_neg ((refsOk_iff.1 hd).1 j i rnj rn (Ne.symm hij) hsj hsi).2]
    split
    · unfold tagsOfIdx attsOfIdx
      dsimp only
      rw [List.getElem?_set_ne hij]
      cases hsj : s.nodes[j]? with
      | none => exact ⟨rfl, rfl⟩
      | some rnj => exact ⟨rfl, hstore rnj hsj⟩
    · unfold tagsOfIdx attsOfIdx
      dsimp only
      rw [List.getElem?_set_ne hij]
      cases hsj : s.nodes[j]? with
      | none => exact ⟨rfl, rfl⟩
      | some rnj =>
        refine ⟨?_, hstore rnj hsj⟩
        show (if rnj.tagsRef = s.heap.next
            then (enrich_selected ext (refNodeData s rn)).tags
            else (writeAttStore s.heap rn.attRef
              (enrich_selected ext (refNodeData s rn)).attachments).tagStore rnj.tagsRef) =
          s.heap.tagStore rnj.tagsRef
        rw [if_neg (Nat.ne_of_lt (hd.2 rnj (List.getElem?_mem hsj)).1)]
        rfl

/-- C3: container isolation.  In the heap model of the two mutable list
fields, each modelled operation (inspector tag edit, attachment add,
enrichment, import) preserves the invariant that no two nodes hold the same
tag-list or attachment-list reference, and every operation that mutates one
node's containers leaves every other node's tag list and attachment list
untouched.  (`export_json` builds value copies into the document and writes no
node's containers, so it is the identity on the heap and introduces no
sharing.) -/
theorem c3_no_aliasing (s : HeapState) (hd : DistinctRefs s) :
    (∀ (i : Nat) (text : String), DistinctRefs (opTagEdit s i text)) ∧
    (∀ (i : Nat) (att : Attachment), DistinctRefs (opAttachAdd s i att)) ∧
    (∀ (ext : ExtLookups) (i : Nat), DistinctRefs (opEnrich ext s i)) ∧
    (∀ d : Doc, DistinctRefs (opImportHeap d s)) ∧
    (∀ (i j : Nat) (text : String), i ≠ j →
      tagsOfIdx (opTagEdit s i text) j = tagsOfIdx s j ∧
      attsOfIdx (opTagEdit s i text) j = attsOfIdx s j) ∧
    (∀ (i j : Nat) (att : Attachment), i ≠ j →
      tagsOfIdx (opAttachAdd s i att) j = tagsOfIdx s j ∧
      attsOfIdx (opAttachAdd s i att) j = attsOfIdx s j) ∧
    (∀ (ext : ExtLookups) (i j : Nat), i ≠ j →
      tagsOfIdx (opEnrich ext s i) j = tagsOfIdx s j ∧
      attsOfIdx (opEnrich ext s i) j = attsOfIdx s j) :=
  ⟨fun i text => distinctRefs_opTagEdit s hd i text,
   fun i att => distinctRefs_opAttachAdd s hd i att,
   fun ext i => distinctRefs_opEnrich ext s hd i,
   fun d => distinctRefs_opImportHeap d s,
   fun _ _ text hij => opTagEdit_other s hd hij text,
   fun _ _ att hij => opAttachAdd_other s hd hij att,
   fun ext _ _ hij => opEnrich_other ext s hd hij⟩

/-- C3 witness: in a concrete two-node state, editing node 0's tags leaves
node 1's containers untouched and keeps the references distinct. -/
theorem c3_witness :
    (tagsOfIdx (opTagEdit c3wSt 0 "x, y") 1 = tagsOfIdx c3wSt 1 ∧
      attsOfIdx (opTagEdit c3wSt 0 "x, y") 1 = attsOfIdx c3wSt 1) ∧
    DistinctRefs (opTagEdit c3wSt 0 "t") := by
  have hd : DistinctRefs c3wSt := by
    constructor
    · simp [c3wSt, List.pairwise_cons]
    · intro rn h
      rcases List.mem_cons.1 h with rfl | h
      · exact ⟨by decide, by decide⟩
      · rcases List.mem_singleton.1 h with rfl
        exact ⟨by decide, by decide⟩
  have h := c3_no_aliasing c3wSt hd
  exact ⟨h.2.2.2.2.1 0 1 "x, y" (by decide), h.1 0 "t"⟩
